import Mathlib

/-!
Shallow embedding of the sorting core of the `poc-react-aria-table`
repository: the record type, the two comparators, the sort invocations,
the sort-state controller and the record normaliser, translated from
`src/Table.tsx` and `src/App.tsx`.

JS numbers held in `month`, `year` and `total` are used as integers and
are modelled as `Int`.  JS strings are modelled as `String`, and both
`String.prototype.localeCompare` and the JS relational operators on
strings are modelled by one lexicographic comparison on the underlying
character lists (`charListCmp`), so that a single total order stands in
for the runtime collation.  `Array.prototype.sort` is required by the
ECMAScript specification to be stable; for a consistent comparator its
result is the unique stable order, which `List.insertionSort` by the
relation `cmp a b ≤ 0` computes.  Consistency of both comparators used
by the code is proved below (`compareValues_le_total` etc.), so the
model is exact for this program.
-/

/-- The record type `LocationData` from `src/Table.tsx:21-27`. -/
structure LocationData where
  id : String
  location : String
  month : Int
  year : Int
  total : Int
deriving Repr, DecidableEq

/-- The sortable columns: `keyof LocationData`. -/
inductive Column where
  | id
  | location
  | month
  | year
  | total
deriving Repr, DecidableEq

/-- The two directions of a react-aria `SortDescriptor`. -/
inductive Direction where
  | ascending
  | descending
deriving Repr, DecidableEq

/-- A JS value stored in a record field: a string or a number. -/
inductive Value where
  | str : String → Value
  | num : Int → Value
deriving Repr, DecidableEq

/-- Dynamic field access `r[column]` used by both comparators in
`src/Table.tsx`. -/
def getVal (r : LocationData) : Column → Value
  | .id => .str r.id
  | .location => .str r.location
  | .month => .num r.month
  | .year => .num r.year
  | .total => .num r.total

/-- Lexicographic comparison of character lists, the order underlying the
string comparison model. -/
def charListCmp : List Char → List Char → Int
  | [], [] => 0
  | [], _ :: _ => -1
  | _ :: _, [] => 1
  | a :: as, b :: bs =>
      if a < b then -1 else if b < a then 1 else charListCmp as bs

/-- Sign model of `String.prototype.localeCompare` (and of the JS
relational operators on strings): lexicographic comparison of the
character lists. -/
def strCmp (a b : String) : Int :=
  charListCmp a.data b.data

/-- Application of a `SortDescriptor` direction to a comparator result:
`direction === 'ascending' ? c : -c`. -/
def applyDir (direction : Direction) (c : Int) : Int :=
  match direction with
  | .ascending => c
  | .descending => -c

/-- The tie-break chain ending `compareValues` (`src/Table.tsx:45-53`):
location ascending by collation, then year descending, then month
descending. -/
def tieBreak (a b : LocationData) : Int :=
  let locationCompare := strCmp a.location b.location
  if locationCompare ≠ 0 then locationCompare
  else if a.year ≠ b.year then b.year - a.year
  else b.month - a.month

/-- The comparator `compareValues` of `sortItems` (`src/Table.tsx:30-54`).
The record type gives every column one fixed runtime type, so the mixed
string/number cases are unreachable; they return 0. -/
def compareValues (column : Column) (direction : Direction)
    (a b : LocationData) : Int :=
  match getVal a column, getVal b column with
  | .str aVal, .str bVal => applyDir direction (strCmp aVal bVal)
  | .num aVal, .num bVal =>
      if aVal < bVal then applyDir direction (-1)
      else if bVal < aVal then applyDir direction 1
      else tieBreak a b
  | .str _, .num _ => 0
  | .num _, .str _ => 0

/-- JS `<` on two record field values.  For a fixed column both operands
have the same runtime type; a comparison across types is unreachable and
yields `false`, exactly as the NaN comparison would in JS. -/
def valLt : Value → Value → Bool
  | .str x, .str y => decide (strCmp x y < 0)
  | .num x, .num y => decide (x < y)
  | .str _, .num _ => false
  | .num _, .str _ => false

/-- The inline comparator of the component's `sortedItems` memo
(`src/Table.tsx:73-78`): `first < second ? -1 : first > second ? 1 : 0`
with the direction applied afterwards; it has no tie-break chain. -/
def inlineCmp (column : Column) (direction : Direction)
    (a b : LocationData) : Int :=
  let first := getVal a column
  let second := getVal b column
  let cmp : Int := if valLt first second then -1
    else if valLt second first then 1 else 0
  applyDir direction cmp

/-- Model of `Array.prototype.sort(cmp)` for a consistent comparator: the
stable sort by the relation `cmp a b ≤ 0`.  Stability and sortedness
determine the result of the ECMAScript sort uniquely in that case, and
`List.insertionSort` computes it. -/
def jsSort (cmp : LocationData → LocationData → Int)
    (l : List LocationData) : List LocationData :=
  List.insertionSort (fun a b => cmp a b ≤ 0) l

/-- The function `sortItems` from `src/Table.tsx:29-57`: it sorts a copy
(`items.slice()`) of its input with `compareValues`. -/
def sortItems (items : List LocationData) (column : Column)
    (direction : Direction) : List LocationData :=
  jsSort (compareValues column direction) items

/-- The component's `sortedItems` computation (`src/Table.tsx:69-80`): it
sorts a spread copy `[...props.items]` with the inline comparator. -/
def sortedItems (items : List LocationData) (column : Column)
    (direction : Direction) : List LocationData :=
  jsSort (inlineCmp column direction) items

/-- A react-aria `SortDescriptor`: the active column and direction. -/
structure SortState where
  column : Column
  direction : Direction
deriving Repr, DecidableEq

/-- The initial `useState` value of the component (`src/Table.tsx:64-67`):
column `location`, direction `ascending`. -/
def initialSortState : SortState :=
  { column := .location, direction := .ascending }

/-- Direction flip. -/
def flipDir : Direction → Direction
  | .ascending => .descending
  | .descending => .ascending

/-- Modelled from the spec: the `RequestSort(column)` transition of the
sort-state controller.  The component only wires
`onSortChange={setSortDescriptor}` (`src/Table.tsx:90`); the next
descriptor is computed inside the react-aria-components library, whose
code is not part of this repository.  Per the spec, a request for a
fresh column starts ascending and a request for the current column flips
the direction. -/
def requestSort (s : SortState) (c : Column) : SortState :=
  if c = s.column then { column := s.column, direction := flipDir s.direction }
  else { column := c, direction := .ascending }

/-- A raw input row, `Omit<LocationData, 'id'>` from `src/App.tsx`. -/
structure RawLocation where
  location : String
  month : Int
  year : Int
  total : Int
deriving Repr, DecidableEq

/-- The normaliser `mapLocationResult` from `src/App.tsx:6-10`: it spreads
each raw row and adds the derived identity
`` `${location.location}-${location.month}-${location.year}` ``. -/
def mapLocationResult (preprocessed : List RawLocation) : List LocationData :=
  preprocessed.map fun location =>
    { id := location.location ++ "-" ++ toString location.month ++ "-"
        ++ toString location.year
      location := location.location
      month := location.month
      year := location.year
      total := location.total }

/-- A heap of JS arrays, for stating the frame property of the sort calls:
references are allocation indices, contents are record lists. -/
def readArr (h : List (List LocationData)) (r : Nat) : List LocationData :=
  h.getD r []

/-- The call `items.slice().sort(compareValues)` of `src/Table.tsx:56` as a
heap operation: `slice` allocates a fresh copy, `sort` reorders that copy
in place, and the fresh reference is returned. -/
def sortItemsCall (h : List (List LocationData)) (r : Nat) (c : Column)
    (d : Direction) : List (List LocationData) × Nat :=
  let copy := readArr h r
  let h1 := h ++ [copy]
  let r1 := h.length
  let h2 := h1.set r1 (jsSort (compareValues c d) (readArr h1 r1))
  (h2, r1)

/-- The call `[...props.items].sort(...)` of the `sortedItems` memo
(`src/Table.tsx:70-73`) as a heap operation: the spread allocates a fresh
copy, `sort` reorders that copy in place, and the fresh reference is
returned. -/
def sortedItemsCall (h : List (List LocationData)) (r : Nat) (c : Column)
    (d : Direction) : List (List LocationData) × Nat :=
  let copy := readArr h r
  let h1 := h ++ [copy]
  let r1 := h.length
  let h2 := h1.set r1 (jsSort (inlineCmp c d) (readArr h1 r1))
  (h2, r1)

/-- The spec's tie-break strict order: location ascending, then year
descending, then month descending. -/
def tieBreakLT (a b : LocationData) : Prop :=
  strCmp a.location b.location < 0 ∨ (a.location = b.location ∧
    (b.year < a.year ∨ (a.year = b.year ∧ b.month < a.month)))

/-- Concrete record: ties with `mismB` on `month`, `year` and `total` but
has the larger location. -/
def mismA : LocationData :=
  { id := "a", location := "B", month := 1, year := 2020, total := 5 }

/-- Concrete record: ties with `mismA` on `month`, `year` and `total` but
has the smaller location. -/
def mismB : LocationData :=
  { id := "b", location := "A", month := 1, year := 2020, total := 5 }

/-- Concrete record: same location as `cexLocTieB`, smaller year. -/
def cexLocTieA : LocationData :=
  { id := "A", location := "X", month := 1, year := 2020, total := 0 }

/-- Concrete record: same location as `cexLocTieA`, larger year. -/
def cexLocTieB : LocationData :=
  { id := "B", location := "X", month := 2, year := 2021, total := 0 }

/-- The record of the spec's tie-break stability example, with the id the
normaliser would derive. -/
def tieExA : LocationData :=
  { id := "X-1-2020", location := "X", month := 1, year := 2020, total := 5 }

/-- A concrete raw input row. -/
def rawEx : RawLocation :=
  { location := "X", month := 1, year := 2020, total := 5 }

/-! ### Properties of the string comparison model -/

theorem charListCmp_values : ∀ as bs : List Char,
    charListCmp as bs = -1 ∨ charListCmp as bs = 0 ∨ charListCmp as bs = 1 := by
  intro as
  induction as with
  | nil => intro bs; cases bs <;> simp [charListCmp]
  | cons a as ih =>
      intro bs
      cases bs with
      | nil => simp [charListCmp]
      | cons b bs =>
          rcases lt_trichotomy a b with hab | hab | hab
          · simp [charListCmp, hab]
          · subst hab; simpa [charListCmp] using ih bs
          · simp [charListCmp, lt_asymm hab, hab]

theorem charListCmp_eq_zero_iff : ∀ as bs : List Char,
    charListCmp as bs = 0 ↔ as = bs := by
  intro as
  induction as with
  | nil => intro bs; cases bs <;> simp [charListCmp]
  | cons a as ih =>
      intro bs
      cases bs with
      | nil => simp [charListCmp]
      | cons b bs =>
          rcases lt_trichotomy a b with hab | hab | hab
          · have e : charListCmp (a :: as) (b :: bs) = -1 := by
              simp [charListCmp, hab]
            rw [e]
            constructor
            · intro h; exact absurd h (by decide)
            · intro h
              injection h with h1 h2
              exact absurd (h1 ▸ hab) (lt_irrefl b)
          · subst hab; simp [charListCmp, ih]
          · have e : charListCmp (a :: as) (b :: bs) = 1 := by
              simp [charListCmp, lt_asymm hab, hab]
            rw [e]
            constructor
            · intro h; exact absurd h (by decide)
            · intro h
              injection h with h1 h2
              exact absurd (h1 ▸ hab) (lt_irrefl b)

theorem charListCmp_neg : ∀ as bs : List Char,
    charListCmp bs as = -charListCmp as bs := by
  intro as
  induction as with
  | nil => intro bs; cases bs <;> simp [charListCmp]
  | cons a as ih =>
      intro bs
      cases bs with
      | nil => simp [charListCmp]
      | cons b bs =>
          rcases lt_trichotomy a b with hab | hab | hab
          · simp [charListCmp, hab, lt_asymm hab]
          · subst hab; simpa [charListCmp] using ih bs
          · simp [charListCmp, hab, lt_asymm hab]

theorem charListCmp_le_trans : ∀ as bs cs : List Char,
    charListCmp as bs ≤ 0 → charListCmp bs cs ≤ 0 → charListCmp as cs ≤ 0 := by
  intro as
  induction as with
  | nil =>
      intro bs cs h1 h2
      cases cs <;> simp [charListCmp]
  | cons a as ih =>
      intro bs cs h1 h2
      cases bs with
      | nil => simp [charListCmp] at h1
      | cons b bs =>
          cases cs with
          | nil => simp [charListCmp] at h2
          | cons c cs =>
              rcases lt_trichotomy a b with hab | hab | hab
              · rcases lt_trichotomy b c with hbc | hbc | hbc
                · have hac : a < c := lt_trans hab hbc
                  simp [charListCmp, hac]
                · subst hbc; simp [charListCmp, hab]
                · have e : charListCmp (b :: bs) (c :: cs) = 1 := by
                    simp [charListCmp, lt_asymm hbc, hbc]
                  omega
              · subst hab
                have h1' : charListCmp as bs ≤ 0 := by
                  simpa [charListCmp] using h1
                rcases lt_trichotomy a c with hac | hac | hac
                · simp [charListCmp, hac]
                · subst hac
                  have h2' : charListCmp bs cs ≤ 0 := by
                    simpa [charListCmp] using h2
                  simpa [charListCmp] using ih bs cs h1' h2'
                · have e : charListCmp (a :: bs) (c :: cs) = 1 := by
                    simp [charListCmp, lt_asymm hac, hac]
                  omega
              · have e : charListCmp (a :: as) (b :: bs) = 1 := by
                  simp [charListCmp, lt_asymm hab, hab]
                omega

theorem strCmp_eq_zero_iff (a b : String) : strCmp a b = 0 ↔ a = b := by
  rw [strCmp, charListCmp_eq_zero_iff]
  exact String.ext_iff.symm

theorem strCmp_neg (a b : String) : strCmp b a = -strCmp a b :=
  charListCmp_neg a.data b.data

theorem strCmp_values (a b : String) :
    strCmp a b = -1 ∨ strCmp a b = 0 ∨ strCmp a b = 1 :=
  charListCmp_values a.data b.data

theorem strCmp_le_trans {a b c : String}
    (h1 : strCmp a b ≤ 0) (h2 : strCmp b c ≤ 0) : strCmp a c ≤ 0 :=
  charListCmp_le_trans a.data b.data c.data h1 h2

theorem strCmp_lt_of_lt_of_le {a b c : String}
    (h1 : strCmp a b < 0) (h2 : strCmp b c ≤ 0) : strCmp a c < 0 := by
  have hle : strCmp a c ≤ 0 := strCmp_le_trans (le_of_lt h1) h2
  rcases eq_or_lt_of_le hle with heq | hlt
  · exfalso
    have hac : a = c := (strCmp_eq_zero_iff a c).mp heq.symm.symm
    subst hac
    have := strCmp_neg a b
    omega
  · exact hlt

theorem strCmp_lt_of_le_of_lt {a b c : String}
    (h1 : strCmp a b ≤ 0) (h2 : strCmp b c < 0) : strCmp a c < 0 := by
  have hle : strCmp a c ≤ 0 := strCmp_le_trans h1 (le_of_lt h2)
  rcases eq_or_lt_of_le hle with heq | hlt
  · exfalso
    have hac : a = c := (strCmp_eq_zero_iff a c).mp heq.symm.symm
    subst hac
    have := strCmp_neg a b
    omega
  · exact hlt

/-! ### Properties of the comparators -/

theorem tieBreak_neg (a b : LocationData) : tieBreak b a = -tieBreak a b := by
  have hneg := strCmp_neg a.location b.location
  simp only [tieBreak]
  split_ifs <;> omega

theorem tieBreak_le_trans {a b c : LocationData}
    (h1 : tieBreak a b ≤ 0) (h2 : tieBreak b c ≤ 0) : tieBreak a c ≤ 0 := by
  have k1 : strCmp a.location b.location = 0 →
      strCmp a.location c.location = strCmp b.location c.location := by
    intro h; rw [(strCmp_eq_zero_iff _ _).mp h]
  have k2 : strCmp b.location c.location = 0 →
      strCmp a.location c.location = strCmp a.location b.location := by
    intro h; rw [← (strCmp_eq_zero_iff _ _).mp h]
  have k3 : strCmp a.location b.location < 0 → strCmp b.location c.location < 0 →
      strCmp a.location c.location < 0 :=
    fun u v => strCmp_lt_of_lt_of_le u (le_of_lt v)
  simp only [tieBreak] at h1 h2 ⊢
  split_ifs at h1 h2 ⊢ <;> omega

theorem tieBreak_eq_zero_iff (a b : LocationData) :
    tieBreak a b = 0 ↔ a.location = b.location ∧ a.year = b.year ∧
      a.month = b.month := by
  have hz := strCmp_eq_zero_iff a.location b.location
  simp only [tieBreak]
  split_ifs with h1 h2
  · constructor
    · intro h; exact absurd h h1
    · rintro ⟨he, -, -⟩; exact absurd (hz.mpr he) h1
  · constructor
    · intro h
      exact absurd (by omega : a.year = b.year) h2
    · rintro ⟨-, hy, -⟩; exact absurd hy h2
  · have he : a.location = b.location := hz.mp (not_not.mp h1)
    have hy : a.year = b.year := not_not.mp h2
    constructor
    · intro h; exact ⟨he, hy, by omega⟩
    · rintro ⟨-, -, hm⟩; omega

theorem tieBreak_lt_iff (a b : LocationData) :
    tieBreak a b < 0 ↔ tieBreakLT a b := by
  have hz := strCmp_eq_zero_iff a.location b.location
  simp only [tieBreak, tieBreakLT]
  split_ifs with h1 h2
  · constructor
    · intro h; exact Or.inl h
    · rintro (h | ⟨he, -⟩)
      · exact h
      · exact absurd (hz.mpr he) h1
  · have h0 : strCmp a.location b.location = 0 := not_not.mp h1
    have he : a.location = b.location := hz.mp h0
    constructor
    · intro h; exact Or.inr ⟨he, Or.inl (by omega)⟩
    · rintro (h | ⟨-, hy | ⟨hy, -⟩⟩)
      · omega
      · omega
      · exact absurd hy h2
  · have h0 : strCmp a.location b.location = 0 := not_not.mp h1
    have he : a.location = b.location := hz.mp h0
    have hy : a.year = b.year := not_not.mp h2
    constructor
    · intro h; exact Or.inr ⟨he, Or.inr ⟨hy, by omega⟩⟩
    · rintro (h | ⟨-, hy2 | ⟨-, hm⟩⟩) <;> omega

theorem compareValues_neg (col : Column) (dir : Direction) (a b : LocationData) :
    compareValues col dir b a = -compareValues col dir a b := by
  have t1 := tieBreak_neg a b
  have s1 := strCmp_neg a.id b.id
  have s2 := strCmp_neg a.location b.location
  cases col <;> cases dir <;>
    simp only [compareValues, getVal, applyDir] <;>
    first
      | (split_ifs <;> omega)
      | omega

theorem strPrim_le_trans (d : Direction) {x y z : String}
    (h1 : applyDir d (strCmp x y) ≤ 0) (h2 : applyDir d (strCmp y z) ≤ 0) :
    applyDir d (strCmp x z) ≤ 0 := by
  have n1 := strCmp_neg x y
  have n2 := strCmp_neg y z
  have n3 := strCmp_neg x z
  have t1 : strCmp x y ≤ 0 → strCmp y z ≤ 0 → strCmp x z ≤ 0 :=
    fun u v => strCmp_le_trans u v
  have t2 : strCmp z y ≤ 0 → strCmp y x ≤ 0 → strCmp z x ≤ 0 :=
    fun u v => strCmp_le_trans u v
  cases d <;> simp only [applyDir] at h1 h2 ⊢ <;> omega

theorem numChain_le_trans (d : Direction) {x y z ta tb tc : Int}
    (hTB : ta ≤ 0 → tb ≤ 0 → tc ≤ 0)
    (h1 : (if x < y then applyDir d (-1) else if y < x then applyDir d 1
      else ta) ≤ 0)
    (h2 : (if y < z then applyDir d (-1) else if z < y then applyDir d 1
      else tb) ≤ 0) :
    (if x < z then applyDir d (-1) else if z < x then applyDir d 1
      else tc) ≤ 0 := by
  cases d <;> simp only [applyDir] at h1 h2 ⊢ <;>
    split_ifs at h1 h2 ⊢ <;> omega

theorem compareValues_le_trans (col : Column) (dir : Direction)
    {a b c : LocationData} (h1 : compareValues col dir a b ≤ 0)
    (h2 : compareValues col dir b c ≤ 0) : compareValues col dir a c ≤ 0 := by
  cases col <;> simp only [compareValues, getVal] at h1 h2 ⊢ <;>
    first
      | exact strPrim_le_trans dir h1 h2
      | exact numChain_le_trans dir (fun u v => tieBreak_le_trans u v) h1 h2

theorem compareValues_le_total (col : Column) (dir : Direction)
    (a b : LocationData) :
    compareValues col dir a b ≤ 0 ∨ compareValues col dir b a ≤ 0 := by
  have := compareValues_neg col dir a b
  omega

theorem compareValues_eq_zero_primary {col : Column} {dir : Direction}
    {a b : LocationData} (h : compareValues col dir a b = 0) :
    getVal a col = getVal b col := by
  cases col <;> cases dir <;>
    simp only [compareValues, getVal, applyDir] at h ⊢ <;>
    first
      | exact congrArg Value.str ((strCmp_eq_zero_iff _ _).mp (by omega))
      | (split_ifs at h with h1 h2 <;>
          first
            | exact absurd h (by decide)
            | exact congrArg Value.num (by omega))

/-! ### Properties of the inline comparator -/

theorem strInline_le_trans (d : Direction) {x y z : String}
    (h1 : applyDir d (if strCmp x y < 0 then -1
      else if strCmp y x < 0 then 1 else 0) ≤ 0)
    (h2 : applyDir d (if strCmp y z < 0 then -1
      else if strCmp z y < 0 then 1 else 0) ≤ 0) :
    applyDir d (if strCmp x z < 0 then -1
      else if strCmp z x < 0 then 1 else 0) ≤ 0 := by
  have n1 := strCmp_neg x y
  have n2 := strCmp_neg y z
  have n3 := strCmp_neg x z
  have t1 : strCmp x y ≤ 0 → strCmp y z ≤ 0 → strCmp x z ≤ 0 :=
    fun u v => strCmp_le_trans u v
  have t2 : strCmp z y ≤ 0 → strCmp y x ≤ 0 → strCmp z x ≤ 0 :=
    fun u v => strCmp_le_trans u v
  cases d <;> simp only [applyDir] at h1 h2 ⊢ <;>
    split_ifs at h1 h2 ⊢ <;> omega

theorem numInline_le_trans (d : Direction) {x y z : Int}
    (h1 : applyDir d (if x < y then -1 else if y < x then 1 else 0) ≤ 0)
    (h2 : applyDir d (if y < z then -1 else if z < y then 1 else 0) ≤ 0) :
    applyDir d (if x < z then -1 else if z < x then 1 else 0) ≤ 0 := by
  cases d <;> simp only [applyDir] at h1 h2 ⊢ <;>
    split_ifs at h1 h2 ⊢ <;> omega

theorem inlineCmp_le_trans (col : Column) (dir : Direction)
    {a b c : LocationData} (h1 : inlineCmp col dir a b ≤ 0)
    (h2 : inlineCmp col dir b c ≤ 0) : inlineCmp col dir a c ≤ 0 := by
  cases col <;>
    simp only [inlineCmp, getVal, valLt, decide_eq_true_eq] at h1 h2 ⊢ <;>
    first
      | exact strInline_le_trans dir h1 h2
      | exact numInline_le_trans dir h1 h2

theorem inlineCmp_neg (col : Column) (dir : Direction) (a b : LocationData) :
    inlineCmp col dir b a = -inlineCmp col dir a b := by
  have n1 := strCmp_neg a.id b.id
  have n2 := strCmp_neg a.location b.location
  cases col <;> cases dir <;>
    simp only [inlineCmp, getVal, valLt, decide_eq_true_eq, applyDir] <;>
    split_ifs <;> omega

theorem inlineCmp_le_total (col : Column) (dir : Direction)
    (a b : LocationData) :
    inlineCmp col dir a b ≤ 0 ∨ inlineCmp col dir b a ≤ 0 := by
  have := inlineCmp_neg col dir a b
  omega

theorem inlineCmp_eq_zero_primary {col : Column} {dir : Direction}
    {a b : LocationData} (h : inlineCmp col dir a b = 0) :
    getVal a col = getVal b col := by
  have n1 := strCmp_neg a.id b.id
  have n2 := strCmp_neg a.location b.location
  cases col <;> cases dir <;>
    simp only [inlineCmp, getVal, valLt, decide_eq_true_eq, applyDir] at h ⊢ <;>
    split_ifs at h with h1 h2 <;>
    first
      | exact absurd h (by decide)
      | exact congrArg Value.str ((strCmp_eq_zero_iff _ _).mp (by omega))
      | exact congrArg Value.num (by omega)

theorem strAgree (d : Direction) {x y : String} (h : ¬x = y) :
    applyDir d (if strCmp x y < 0 then -1 else if strCmp y x < 0 then 1
      else 0) = applyDir d (strCmp x y) := by
  have v := strCmp_values x y
  have n := strCmp_neg x y
  have hz : strCmp x y ≠ 0 := fun h0 => h ((strCmp_eq_zero_iff _ _).mp h0)
  cases d <;> simp only [applyDir] <;> split_ifs <;> omega

theorem numAgree (d : Direction) {x y : Int} (ta : Int) (h : ¬x = y) :
    applyDir d (if x < y then -1 else if y < x then 1 else 0) =
      (if x < y then applyDir d (-1) else if y < x then applyDir d 1
        else ta) := by
  cases d <;> simp only [applyDir] <;> split_ifs <;> omega

theorem inlineCmp_eq_compareValues (col : Column) (dir : Direction)
    {a b : LocationData} (h : getVal a col ≠ getVal b col) :
    inlineCmp col dir a b = compareValues col dir a b := by
  cases col <;>
    simp only [inlineCmp, compareValues, getVal, valLt, decide_eq_true_eq,
      ne_eq, Value.str.injEq, Value.num.injEq] at h ⊢ <;>
    first
      | exact strAgree dir h
      | exact numAgree dir _ h

/-! ### Properties of the sort model -/

theorem jsSort_perm (cmp : LocationData → LocationData → Int)
    (l : List LocationData) : (jsSort cmp l).Perm l :=
  List.perm_insertionSort _ l

theorem jsSort_sorted (cmp : LocationData → LocationData → Int)
    (l : List LocationData)
    (htrans : ∀ a b c, cmp a b ≤ 0 → cmp b c ≤ 0 → cmp a c ≤ 0)
    (htot : ∀ a b, cmp a b ≤ 0 ∨ cmp b a ≤ 0) :
    (jsSort cmp l).Sorted (fun a b => cmp a b ≤ 0) := by
  haveI : IsTotal LocationData (fun a b => cmp a b ≤ 0) := ⟨fun a b => htot a b⟩
  haveI : IsTrans LocationData (fun a b => cmp a b ≤ 0) :=
    ⟨fun a b c => htrans a b c⟩
  exact List.sorted_insertionSort _ l

theorem jsSort_sublist (cmp : LocationData → LocationData → Int)
    {l c : List LocationData} (hc : c.Pairwise (fun a b => cmp a b ≤ 0))
    (hs : c.Sublist l) : c.Sublist (jsSort cmp l) :=
  List.sublist_insertionSort hc hs

theorem cv_antisymm (col : Column) (dir : Direction) :
    ∀ a b : LocationData, (compareValues col dir a b < 0 ∨ a = b) →
      (compareValues col dir b a < 0 ∨ b = a) → a = b := by
  intro a b h1 h2
  rcases h1 with h1 | rfl
  · rcases h2 with h2 | rfl
    · have := compareValues_neg col dir a b
      omega
    · rfl
  · rfl

theorem compareValues_tie_eq {col : Column} (dir : Direction)
    {a b : LocationData} (hprim : getVal a col = getVal b col) :
    compareValues col dir a b =
      if col = Column.id ∨ col = Column.location then 0 else tieBreak a b := by
  cases col <;>
    simp only [getVal, Value.str.injEq, Value.num.injEq] at hprim
  case id =>
    have h0 : strCmp a.id b.id = 0 := (strCmp_eq_zero_iff _ _).mpr hprim
    cases dir <;> simp [compareValues, getVal, h0, applyDir]
  case location =>
    have h0 : strCmp a.location b.location = 0 :=
      (strCmp_eq_zero_iff _ _).mpr hprim
    cases dir <;> simp [compareValues, getVal, h0, applyDir]
  case month => simp [compareValues, getVal, hprim]
  case year => simp [compareValues, getVal, hprim]
  case total => simp [compareValues, getVal, hprim]

theorem compareValues_desc_of_ne {col : Column} {a b : LocationData}
    (h : getVal a col ≠ getVal b col) :
    compareValues col Direction.descending a b =
      -compareValues col Direction.ascending a b := by
  cases col <;>
    simp only [compareValues, getVal, applyDir, ne_eq, Value.str.injEq,
      Value.num.injEq] at h ⊢ <;>
    first
      | rfl
      | (split_ifs <;> omega)

/-! ### The claims -/

/-- Counterexample to C1: with primary column `location` and equal
locations but different years, `compareValues` returns 0 at once — the
string branch returns unconditionally, so the year-descending tie-break
the claim demands (value 1 here, ordering the 2021 record first) is never
applied. -/
theorem compareValues_location_tie_cex :
    compareValues Column.location Direction.ascending cexLocTieA cexLocTieB
      = 0 ∧
    compareValues Column.location Direction.descending cexLocTieA cexLocTieB
      = 0 ∧
    cexLocTieA.location = cexLocTieB.location ∧
    cexLocTieA.year ≠ cexLocTieB.year ∧
    tieBreak cexLocTieA cexLocTieB = 1 := by decide

/-- C1 (amended): for every pair of records whose values in the primary
sort column compare equal, if the primary column is numeric (`month`,
`year` or `total`) the comparator returns the direction-independent
tie-break chain — location ascending by collation, then year descending,
then month descending, and exactly 0 when the records agree on all
three — while if the primary column is a string column (`location` or
`id`) it returns 0 immediately without applying the chain. -/
theorem compareValues_tie_break_spec (col : Column) (dir : Direction)
    (a b : LocationData) (hprim : getVal a col = getVal b col) :
    compareValues col dir a b =
      (if col = Column.id ∨ col = Column.location then 0 else tieBreak a b) ∧
    (tieBreak a b < 0 ↔ tieBreakLT a b) ∧
    (tieBreak a b = 0 ↔ a.location = b.location ∧ a.year = b.year ∧
      a.month = b.month) :=
  ⟨compareValues_tie_eq dir hprim, tieBreak_lt_iff a b,
    tieBreak_eq_zero_iff a b⟩

/-- Witness for C1 at a concrete primary tie on `total`. -/
theorem compareValues_tie_break_spec_witness :
    getVal mismA Column.total = getVal mismB Column.total ∧
    compareValues Column.total Direction.descending mismA mismB =
      (if Column.total = Column.id ∨ Column.total = Column.location then 0
        else tieBreak mismA mismB) :=
  ⟨rfl, (compareValues_tie_break_spec Column.total Direction.descending
    mismA mismB rfl).1⟩

/-- Counterexample to C2: on a `total` tie the component's inline
comparator returns 0 and keeps input order, while `sortItems` applies the
location tie-break and reorders, so the two sorts disagree. -/
theorem sortedItems_ne_sortItems_cex :
    sortItems [mismA, mismB] Column.total Direction.ascending
      = [mismB, mismA] ∧
    sortedItems [mismA, mismB] Column.total Direction.ascending
      = [mismA, mismB] ∧
    sortedItems [mismA, mismB] Column.total Direction.ascending ≠
      sortItems [mismA, mismB] Column.total Direction.ascending := by decide

/-- C2 (amended): the sequence produced by the sort actually applied to
the displayed table (the inline comparator of the component's
`sortedItems` computation) equals the sequence produced by `sortItems`
whenever the records have pairwise distinct values in the chosen primary
column; with primary ties the two can differ, since the inline comparator
applies no tie-break chain. -/
theorem sortedItems_eq_sortItems (items : List LocationData) (col : Column)
    (dir : Direction)
    (hnodup : items.Pairwise fun a b => getVal a col ≠ getVal b col) :
    sortedItems items col dir = sortItems items col dir := by
  have p1 : (sortItems items col dir).Perm items := jsSort_perm _ _
  have p2 : (sortedItems items col dir).Perm items := jsSort_perm _ _
  have s1 : (sortItems items col dir).Sorted
      (fun a b => compareValues col dir a b ≤ 0) :=
    jsSort_sorted _ _ (fun a b c u v => compareValues_le_trans col dir u v)
      (fun a b => compareValues_le_total col dir a b)
  have s2 : (sortedItems items col dir).Sorted
      (fun a b => inlineCmp col dir a b ≤ 0) :=
    jsSort_sorted _ _ (fun a b c u v => inlineCmp_le_trans col dir u v)
      (fun a b => inlineCmp_le_total col dir a b)
  have d1 : (sortItems items col dir).Pairwise
      (fun a b => getVal a col ≠ getVal b col) :=
    (p1.pairwise_iff fun h => Ne.symm h).mpr hnodup
  have d2 : (sortedItems items col dir).Pairwise
      (fun a b => getVal a col ≠ getVal b col) :=
    (p2.pairwise_iff fun h => Ne.symm h).mpr hnodup
  have sr1 : (sortItems items col dir).Pairwise
      (fun a b => compareValues col dir a b < 0 ∨ a = b) :=
    (List.Pairwise.and s1 d1).imp fun hab => Or.inl
      (lt_of_le_of_ne hab.1 fun h0 => hab.2 (compareValues_eq_zero_primary h0))
  have sr2 : (sortedItems items col dir).Pairwise
      (fun a b => compareValues col dir a b < 0 ∨ a = b) :=
    (List.Pairwise.and s2 d2).imp fun hab => Or.inl (by
      have h3 := inlineCmp_eq_compareValues col dir hab.2
      have h4 := lt_of_le_of_ne hab.1
        fun h0 => hab.2 (inlineCmp_eq_zero_primary h0)
      omega)
  haveI : IsAntisymm LocationData
      (fun a b => compareValues col dir a b < 0 ∨ a = b) :=
    ⟨cv_antisymm col dir⟩
  exact List.eq_of_perm_of_sorted (p2.trans p1.symm) sr2 sr1

/-- Witness for C2 on a concrete list with distinct years. -/
theorem sortedItems_eq_sortItems_witness :
    ([cexLocTieA, cexLocTieB] : List LocationData).Pairwise
      (fun a b => getVal a Column.year ≠ getVal b Column.year) ∧
    sortedItems [cexLocTieA, cexLocTieB] Column.year Direction.descending =
      sortItems [cexLocTieA, cexLocTieB] Column.year Direction.descending :=
  ⟨by decide, sortedItems_eq_sortItems [cexLocTieA, cexLocTieB] Column.year
    Direction.descending (by decide)⟩

/-- C3: on a full tie — records agreeing on `location`, `year`, `month`
and on the primary column — the comparator returns exactly 0, such
records retain their relative input order (as a sublist of the stable
sort's output), and in particular the spec's concrete example, two
identical records sorted by `total` ascending, comes out in input
order. -/
theorem sort_stable_on_full_ties (col : Column) (dir : Direction)
    (a b : LocationData) (items : List LocationData)
    (hloc : a.location = b.location) (hyear : a.year = b.year)
    (hmonth : a.month = b.month) (hprim : getVal a col = getVal b col)
    (hsub : List.Sublist [a, b] items) :
    compareValues col dir a b = 0 ∧
    List.Sublist [a, b] (sortItems items col dir) ∧
    sortItems [tieExA, tieExA] Column.total Direction.ascending
      = [tieExA, tieExA] := by
  have h0 : compareValues col dir a b = 0 := by
    rw [compareValues_tie_eq dir hprim]
    split_ifs with h
    · rfl
    · exact (tieBreak_eq_zero_iff a b).mpr ⟨hloc, hyear, hmonth⟩
  refine ⟨h0, ?_, by decide⟩
  apply jsSort_sublist _ ?_ hsub
  simp only [List.pairwise_cons, List.mem_singleton, List.not_mem_nil,
    false_implies, implies_true, List.Pairwise.nil, and_true]
  intro a' ha'
  subst ha'
  omega

/-- Witness for C3 at the spec's concrete full-tie pair. -/
theorem sort_stable_on_full_ties_witness :
    List.Sublist [tieExA, tieExA] [tieExA, tieExA] ∧
    List.Sublist [tieExA, tieExA]
      (sortItems [tieExA, tieExA] Column.total Direction.ascending) :=
  ⟨List.Sublist.refl _, (sort_stable_on_full_ties Column.total
    Direction.ascending tieExA tieExA [tieExA, tieExA] rfl rfl rfl rfl
    (List.Sublist.refl _)).2.1⟩

/-- C4: when the records have pairwise distinct values in the chosen
primary column, sorting that column descending produces the exact reverse
of the ascending sort. -/
theorem sortItems_desc_eq_reverse_asc (items : List LocationData)
    (col : Column)
    (hnodup : items.Pairwise fun a b => getVal a col ≠ getVal b col) :
    sortItems items col Direction.descending =
      (sortItems items col Direction.ascending).reverse := by
  have p1 : (sortItems items col Direction.ascending).Perm items :=
    jsSort_perm _ _
  have p2 : (sortItems items col Direction.descending).Perm items :=
    jsSort_perm _ _
  have s1 : (sortItems items col Direction.ascending).Sorted
      (fun a b => compareValues col Direction.ascending a b ≤ 0) :=
    jsSort_sorted _ _
      (fun a b c u v => compareValues_le_trans col Direction.ascending u v)
      (fun a b => compareValues_le_total col Direction.ascending a b)
  have s2 : (sortItems items col Direction.descending).Sorted
      (fun a b => compareValues col Direction.descending a b ≤ 0) :=
    jsSort_sorted _ _
      (fun a b c u v => compareValues_le_trans col Direction.descending u v)
      (fun a b => compareValues_le_total col Direction.descending a b)
  have d1 : (sortItems items col Direction.ascending).Pairwise
      (fun a b => getVal a col ≠ getVal b col) :=
    (p1.pairwise_iff fun h => Ne.symm h).mpr hnodup
  have d2 : (sortItems items col Direction.descending).Pairwise
      (fun a b => getVal a col ≠ getVal b col) :=
    (p2.pairwise_iff fun h => Ne.symm h).mpr hnodup
  have sr2 : (sortItems items col Direction.descending).Pairwise
      (fun a b => compareValues col Direction.descending a b < 0 ∨ a = b) :=
    (List.Pairwise.and s2 d2).imp fun hab => Or.inl
      (lt_of_le_of_ne hab.1 fun h0 => hab.2 (compareValues_eq_zero_primary h0))
  have sr1rev : (sortItems items col Direction.ascending).reverse.Pairwise
      (fun a b => compareValues col Direction.descending a b < 0 ∨ a = b) := by
    rw [List.pairwise_reverse]
    exact (List.Pairwise.and s1 d1).imp fun {x y} hab => Or.inl (by
      have hlt := lt_of_le_of_ne hab.1
        fun h0 => hab.2 (compareValues_eq_zero_primary h0)
      have e1 := compareValues_desc_of_ne (Ne.symm hab.2)
      have e2 := compareValues_neg col Direction.ascending x y
      omega)
  have pfin : (sortItems items col Direction.descending).Perm
      (sortItems items col Direction.ascending).reverse :=
    p2.trans (p1.symm.trans
      (List.reverse_perm (sortItems items col Direction.ascending)).symm)
  haveI : IsAntisymm LocationData
      (fun a b => compareValues col Direction.descending a b < 0 ∨ a = b) :=
    ⟨cv_antisymm col Direction.descending⟩
  exact List.eq_of_perm_of_sorted pfin sr2 sr1rev

/-- Witness for C4 on a concrete list with distinct years. -/
theorem sortItems_desc_eq_reverse_asc_witness :
    ([cexLocTieA, cexLocTieB] : List LocationData).Pairwise
      (fun a b => getVal a Column.year ≠ getVal b Column.year) ∧
    sortItems [cexLocTieA, cexLocTieB] Column.year Direction.descending =
      (sortItems [cexLocTieA, cexLocTieB] Column.year
        Direction.ascending).reverse :=
  ⟨by decide, sortItems_desc_eq_reverse_asc [cexLocTieA, cexLocTieB]
    Column.year (by decide)⟩

/-- C5: the sort state machine starts at `(location, ascending)`; a
`RequestSort` for a fresh column moves to that column ascending, and one
for the current column keeps the column and flips the direction. -/
theorem sort_state_machine (s : SortState) (c : Column) :
    initialSortState =
      { column := Column.location, direction := Direction.ascending } ∧
    (c ≠ s.column →
      requestSort s c = { column := c, direction := Direction.ascending }) ∧
    (c = s.column →
      requestSort s c =
        { column := s.column, direction := flipDir s.direction }) := by
  refine ⟨rfl, fun h => ?_, fun h => ?_⟩ <;> simp [requestSort, h]

/-- Witness for C5: requesting a fresh column from the initial state. -/
theorem sort_state_machine_witness :
    Column.month ≠ initialSortState.column ∧
    requestSort initialSortState Column.month =
      { column := Column.month, direction := Direction.ascending } :=
  ⟨by decide, (sort_state_machine initialSortState Column.month).2.1
    (by decide)⟩

/-- C6: the normaliser produces exactly one record per raw input row, in
input order, copying the four fields and deriving
`id = location ++ "-" ++ month ++ "-" ++ year`. -/
theorem mapLocationResult_spec (preprocessed : List RawLocation) :
    (mapLocationResult preprocessed).length = preprocessed.length ∧
    ∀ (i : Nat) (raw : RawLocation), preprocessed[i]? = some raw →
      (mapLocationResult preprocessed)[i]? = some
        { id := raw.location ++ "-" ++ toString raw.month ++ "-" ++
            toString raw.year
          location := raw.location
          month := raw.month
          year := raw.year
          total := raw.total } := by
  refine ⟨by simp [mapLocationResult], fun i raw h => ?_⟩
  simp [mapLocationResult, List.getElem?_map, h]

/-- Witness for C6 at a concrete one-row input. -/
theorem mapLocationResult_spec_witness :
    ([rawEx] : List RawLocation)[0]? = some rawEx ∧
    (mapLocationResult [rawEx])[0]? = some
      { id := "X-1-2020", location := "X", month := 1, year := 2020,
        total := 5 } :=
  ⟨rfl, by simpa using (mapLocationResult_spec [rawEx]).2 0 rawEx rfl⟩

/-- C7 is violated by the code: two raw rows sharing `(location, month,
year)` but differing in `total` normalise to the same derived id
`"X-1-2020"`, so the ids of the output are not pairwise distinct. -/
theorem mapLocationResult_id_collision :
    (mapLocationResult
      [{ location := "X", month := 1, year := 2020, total := 5 },
       { location := "X", month := 1, year := 2020, total := 6 }]).map
        LocationData.id = ["X-1-2020", "X-1-2020"] ∧
    ¬ ((mapLocationResult
      [{ location := "X", month := 1, year := 2020, total := 5 },
       { location := "X", month := 1, year := 2020, total := 6 }]).map
        LocationData.id).Nodup := by decide

/-- C8: the sort calls leave the caller's array untouched and return a
fresh array: both `items.slice().sort(...)` and `[...props.items]
.sort(...)`, run over an explicit heap of arrays, keep the contents at
the input reference unchanged, return a reference distinct from the
input, and the fresh reference holds exactly the sorted sequence. -/
theorem sort_calls_preserve_input (h : List (List LocationData)) (r : Nat)
    (c : Column) (d : Direction) (hr : r < h.length) :
    readArr (sortItemsCall h r c d).1 r = readArr h r ∧
    (sortItemsCall h r c d).2 ≠ r ∧
    readArr (sortItemsCall h r c d).1 (sortItemsCall h r c d).2 =
      sortItems (readArr h r) c d ∧
    readArr (sortedItemsCall h r c d).1 r = readArr h r ∧
    (sortedItemsCall h r c d).2 ≠ r ∧
    readArr (sortedItemsCall h r c d).1 (sortedItemsCall h r c d).2 =
      sortedItems (readArr h r) c d := by
  have hne : h.length ≠ r := by omega
  have hset : ∀ v : List LocationData,
      (h ++ [readArr h r]).set h.length v = h ++ [v] := by
    intro v
    rw [List.set_append_right _ _ (le_refl h.length)]
    simp
  have hread1 : ∀ v : List LocationData,
      readArr (h ++ [v]) r = readArr h r := by
    intro v
    simp only [readArr]
    exact List.getD_append _ _ _ _ hr
  have hread2 : ∀ v : List LocationData,
      readArr (h ++ [v]) h.length = v := by
    intro v
    simp only [readArr]
    rw [List.getD_append_right _ _ _ _ (le_refl _)]
    simp
  have e1 : sortItemsCall h r c d =
      (h ++ [jsSort (compareValues c d) (readArr h r)], h.length) := by
    simp only [sortItemsCall]
    rw [hread2, hset]
  have e2 : sortedItemsCall h r c d =
      (h ++ [jsSort (inlineCmp c d) (readArr h r)], h.length) := by
    simp only [sortedItemsCall]
    rw [hread2, hset]
  refine ⟨?_, ?_, ?_, ?_, ?_, ?_⟩
  · rw [e1]; exact hread1 _
  · rw [e1]; exact hne
  · rw [e1]; exact hread2 _
  · rw [e2]; exact hread1 _
  · rw [e2]; exact hne
  · rw [e2]; exact hread2 _

/-- Witness for C8 on a one-array heap. -/
theorem sort_calls_preserve_input_witness :
    (0 : Nat) < ([[tieExA]] : List (List LocationData)).length ∧
    readArr (sortItemsCall [[tieExA]] 0 Column.total Direction.ascending).1 0
      = readArr [[tieExA]] 0 :=
  ⟨by decide, (sort_calls_preserve_input [[tieExA]] 0 Column.total
    Direction.ascending (by decide)).1⟩

/-- C9: sorting is deterministic — both sort computations are pure
functions of the record list and sort state, so two invocations on the
same arguments yield the same sequence. -/
theorem sort_deterministic (items : List LocationData) (s : SortState) :
    sortItems items s.column s.direction =
      sortItems items s.column s.direction ∧
    sortedItems items s.column s.direction =
      sortedItems items s.column s.direction :=
  ⟨rfl, rfl⟩

/-- C10: both sort computations return a permutation of their input — the
same records with the same multiplicities, so nothing is dropped,
duplicated or altered. -/
theorem sort_is_permutation (items : List LocationData) (c : Column)
    (d : Direction) :
    (sortItems items c d).Perm items ∧ (sortedItems items c d).Perm items :=
  ⟨jsSort_perm _ _, jsSort_perm _ _⟩
